import Mathlib

/-!
SSCC-18 generation and ingestion: a verification development.

Shallow embedding of the check-digit routine (`lc_create_sscc.go`,
`sscc_val.go`), the encoding step of the generator worker, and the batch
reader, retrying batch processor and consistency verifier of the ingestion
tool (`lc_instert_sscc.go`).

Go strings are byte sequences, so text is modelled as a list of byte values.
Go `int` values are modelled as `Int`; every quantity computed here stays far
inside the 64-bit range.
-/

namespace SSCC

/-! ## Go strings, runes and `strconv.Atoi` -/

/-- A Go string: a read-only sequence of bytes (each value is below 256). -/
abbrev GoString := List Nat

/-- The replacement code point U+FFFD that decoding yields for malformed input. -/
def runeError : Nat := 0xFFFD

/-- Decoding of the first code point of a byte sequence, as performed by a
`for i, char := range s` loop: the code point and the number of bytes it
occupies. Malformed input yields `runeError` with width 1. Bit masks and
shifts of the decoder are written arithmetically (`x % 64` for `x & 0x3F`,
`x * 64` for `x << 6`). -/
def decodeRune : GoString → Nat × Nat
  | [] => (runeError, 0)
  | s0 :: rest =>
    if s0 < 0x80 then (s0, 1)
    else if s0 < 0xC2 then (runeError, 1)
    else if s0 < 0xE0 then
      match rest with
      | s1 :: _ =>
        if 0x80 ≤ s1 ∧ s1 ≤ 0xBF then ((s0 % 32) * 64 + s1 % 64, 2) else (runeError, 1)
      | _ => (runeError, 1)
    else if s0 < 0xF0 then
      let lo := if s0 = 0xE0 then 0xA0 else 0x80
      let hi := if s0 = 0xED then 0x9F else 0xBF
      match rest with
      | s1 :: s2 :: _ =>
        if lo ≤ s1 ∧ s1 ≤ hi ∧ 0x80 ≤ s2 ∧ s2 ≤ 0xBF then
          ((s0 % 16) * 4096 + (s1 % 64) * 64 + s2 % 64, 3)
        else (runeError, 1)
      | _ => (runeError, 1)
    else if s0 < 0xF5 then
      let lo := if s0 = 0xF0 then 0x90 else 0x80
      let hi := if s0 = 0xF4 then 0x8F else 0xBF
      match rest with
      | s1 :: s2 :: s3 :: _ =>
        if lo ≤ s1 ∧ s1 ≤ hi ∧ 0x80 ≤ s2 ∧ s2 ≤ 0xBF ∧ 0x80 ≤ s3 ∧ s3 ≤ 0xBF then
          ((s0 % 8) * 262144 + (s1 % 64) * 4096 + (s2 % 64) * 64 + s3 % 64, 4)
        else (runeError, 1)
      | _ => (runeError, 1)
    else (runeError, 1)

/-- The conversion `string(char)` of a code point to its UTF-8 text; surrogates
and values above U+10FFFF become the text of U+FFFD. -/
def encodeRune (r : Nat) : GoString :=
  if r < 0x80 then [r]
  else if r < 0x800 then [0xC0 + r / 64, 0x80 + r % 64]
  else if (0xD800 ≤ r ∧ r ≤ 0xDFFF) ∨ 0x10FFFF < r then [0xEF, 0xBF, 0xBD]
  else if r < 0x10000 then [0xE0 + r / 4096, 0x80 + r / 64 % 64, 0x80 + r % 64]
  else [0xF0 + r / 262144, 0x80 + r / 4096 % 64, 0x80 + r / 64 % 64, 0x80 + r % 64]

/-- The two failures of `strconv.Atoi`. -/
inductive NumError where
  | invalidText
  | outOfRange
  deriving DecidableEq

/-- The digit loop of `strconv.Atoi`: `n = n*10 + (ch - '0')`, failing on a
byte outside `'0'..'9'`. -/
def atoiDigits : GoString → Nat → Option Nat
  | [], n => some n
  | ch :: rest, n =>
    if 48 ≤ ch ∧ ch ≤ 57 then atoiDigits rest (n * 10 + (ch - 48)) else none

/-- Base-10 `strconv.Atoi`: an optional sign followed by at least one digit,
nothing else; a value outside the 64-bit range is a range error. -/
def atoi (s : GoString) : Except NumError Int :=
  match s with
  | [] => .error .invalidText
  | s0 :: rest =>
    let body := if s0 = 45 ∨ s0 = 43 then rest else s
    match body with
    | [] => .error .invalidText
    | _ :: _ =>
      match atoiDigits body 0 with
      | none => .error .invalidText
      | some n =>
        let v : Int := if s0 = 45 then -(n : Int) else (n : Int)
        if -9223372036854775808 ≤ v ∧ v ≤ 9223372036854775807 then .ok v
        else .error .outOfRange

/-! ## The check digit -/

/-- Outcomes of the check-digit routine other than a value: its two error
returns, and the run-time fault of an out-of-range slice index. -/
inductive SSCCError where
  | invalidLength
  | invalidDigit
  | indexOutOfRange
  deriving DecidableEq

/-- The loop `for i, char := range s { digit, err := strconv.Atoi(string(char)); ...; digits[i] = digit }`.
The list argument is the part of the string from byte index `i` on; `skip`
counts the bytes still belonging to the code point decoded last, which the
range loop steps over without running the body. -/
def rangeDigits : GoString → Nat → Nat → List Int → Except SSCCError (List Int)
  | [], _, _, digits => .ok digits
  | _ :: rest, skip + 1, i, digits => rangeDigits rest skip (i + 1) digits
  | b :: rest, 0, i, digits =>
    match atoi (encodeRune (decodeRune (b :: rest)).1) with
    | .error _ => .error .invalidDigit
    | .ok digit =>
      if i < digits.length then
        rangeDigits rest ((decodeRune (b :: rest)).2 - 1) (i + 1) (digits.set i digit)
      else .error .indexOutOfRange

/-- The loop `for i := 0; i < 17; i++` accumulating the weighted sum. -/
def weightedSum (digits : List Int) : Int :=
  (List.range 17).foldl
    (fun sum i => if i % 2 = 0 then sum + digits.getD i 0 * 3 else sum + digits.getD i 0) 0

/-- Embedding of `calculateSSCCCheckDigit` in `lc_create_sscc.go`. -/
def calculateSSCCCheckDigit (ssccWithoutCheckDigit : GoString) : Except SSCCError Int :=
  if ssccWithoutCheckDigit.length ≠ 17 then .error .invalidLength
  else
    match rangeDigits ssccWithoutCheckDigit 0 0 (List.replicate 17 0) with
    | .error e => .error e
    | .ok digits =>
      let sum := weightedSum digits
      .ok (Int.tmod (10 - Int.tmod sum 10) 10)

/-- Embedding of `CalculateSSCCCheckDigit` in `sscc_val.go`. -/
def CalculateSSCCCheckDigit (ssccWithoutCheckDigit : GoString) : Except SSCCError Int :=
  if ssccWithoutCheckDigit.length ≠ 17 then .error .invalidLength
  else
    match rangeDigits ssccWithoutCheckDigit 0 0 (List.replicate 17 0) with
    | .error e => .error e
    | .ok digits =>
      let sum := weightedSum digits
      .ok (Int.tmod (10 - Int.tmod sum 10) 10)

/-- The bytes of a text literal: the UTF-8 encoding of each of its code points. -/
def goString (s : String) : GoString :=
  s.toList.flatMap (fun c => encodeRune c.toNat)

/-- The characters (code points) of a Go string, in the order in which a
range loop visits them; `skip` is as in `rangeDigits`. -/
def runesFrom : GoString → Nat → List Nat
  | [], _ => []
  | _ :: rest, skip + 1 => runesFrom rest skip
  | b :: rest, 0 =>
    (decodeRune (b :: rest)).1 :: runesFrom rest ((decodeRune (b :: rest)).2 - 1)

/-- The characters of a whole string. -/
def runes (s : GoString) : List Nat := runesFrom s 0

/-- The number of characters of a string. -/
def runeCount (s : GoString) : Nat := (runes s).length

/-- The weighted sum as the specification words it: positions 0..16 from the
left, weight 3 at even positions and 1 at odd ones, over the digit values. -/
def specWeightedSum (s : GoString) : Nat :=
  ((List.range 17).map (fun i => (s.getD i 48 - 48) * (if i % 2 = 0 then 3 else 1))).sum

/-- The check digit as the specification words it. -/
def specCheckDigit (s : GoString) : Nat :=
  (10 - specWeightedSum s % 10) % 10

/-- The weighted sum of an 18-digit code including its check digit, which
enters with weight 1. -/
def specFullSum (code : GoString) : Nat :=
  specWeightedSum (code.take 17) + (code.getD 17 48 - 48)

/-- Every byte is an ASCII decimal digit. -/
def allDigits (s : GoString) : Prop := ∀ b ∈ s, 48 ≤ b ∧ b ≤ 57

instance (s : GoString) : Decidable (allDigits s) := by
  unfold allDigits
  infer_instance

/-- The weighted sum of the specification over a list whose first element
stands at position `i`: the recursive form of `specWeightedSum`. -/
def weightedFrom : Nat → GoString → Nat
  | _, [] => 0
  | i, b :: rest => (b - 48) * (if i % 2 = 0 then 3 else 1) + weightedFrom (i + 1) rest

/-! ## The encoding step of the generator worker -/

/-- The constant `fixedDigit = "1"`. -/
def fixedDigit : GoString := goString "1"

/-- The constant `companyCode = "1111110"`. -/
def companyCode : GoString := goString "1111110"

/-- The constant `startSerial`. -/
def startSerial : Int := 100000000

/-- The constant `endSerial = startSerial + 10_000 - 1`. -/
def endSerial : Int := startSerial + 10000 - 1

/-- The digit loop of `fmt`'s integer formatting,
`for u >= 10 { buf[i] = '0' + u%10; u /= 10 }; buf[i] = '0' + u`, which fills
the buffer from its end. A 64-bit value has at most 20 digits, which bounds
the number of iterations. -/
def fmtDigits : Nat → Nat → GoString → GoString
  | 0, _, buf => buf
  | fuel + 1, u, buf =>
    if 10 ≤ u then fmtDigits fuel (u / 10) ((48 + u % 10) :: buf) else (48 + u) :: buf

/-- The verb `%d` of `fmt.Sprintf` on an `int`, with the zero-padding width of
`%0Nd` (`zeroWidth = 0` for plain `%d`): the decimal digits, padded with `'0'`
on the left up to the width, the sign taking one position of the width. -/
def fmtInteger (v : Int) (zeroWidth : Nat) : GoString :=
  let negative : Bool := decide (v < 0)
  let prec := if negative then zeroWidth - 1 else zeroWidth
  let digits := fmtDigits 20 v.natAbs []
  let padded := List.replicate (prec - digits.length) 48 ++ digits
  if negative then 45 :: padded else padded

/-- The body of the worker loop in `createSsccMain` for one serial:
`prefix := fmt.Sprintf("%s%s%09d", fixedDigit, companyCode, serial)`, the check
digit of it, and on success the text `fmt.Sprintf("%s%d", prefix, checkDigit)`
sent to the writer. -/
def encodeSerial (serial : Int) : Except SSCCError GoString :=
  let pfx := fixedDigit ++ companyCode ++ fmtInteger serial 9
  match calculateSSCCCheckDigit pfx with
  | .error e => .error e
  | .ok checkDigit => .ok (pfx ++ fmtInteger checkDigit 0)

/-- The serial reference as the specification words it: the serial written
with exactly nine decimal digits, zeros on the left. -/
def specZeroPad9 (serial : Nat) : GoString :=
  [8, 7, 6, 5, 4, 3, 2, 1, 0].map (fun k => 48 + serial / 10 ^ k % 10)

/-- The 17-digit body as the specification words it:
extension digit, company prefix, zero-padded serial. -/
def specBody (serial : Nat) : GoString :=
  goString "1" ++ goString "1111110" ++ specZeroPad9 serial

/-! ## The batch reader -/

/-- The constant `batchSize`. -/
def batchSize : Nat := 200

/-- The constant `retryMax`. -/
def retryMax : Nat := 3

/-- What the line scanner delivers for an opened file: the lines that `Scan`
yields, in order, and the value of `scanner.Err()` once `Scan` has stopped. -/
structure Scanned (ε : Type) where
  lines : List GoString
  err : Option ε

/-- The loop `for scanner.Scan()` of `readBatches`: `batch` is the slice being
filled, `sent` the batches already sent on the channel, in order. The pool
only ever holds fresh empty slices, so the slice taken from it after a send is
empty. -/
def readLoop : List GoString → List GoString → List (List GoString) →
    List GoString × List (List GoString)
  | [], batch, sent => (batch, sent)
  | line :: rest, batch, sent =>
    let batch := batch ++ [line]
    if batchSize ≤ batch.length then readLoop rest [] (sent ++ [batch])
    else readLoop rest batch sent

/-- Embedding of `readBatches`: the batches sent on the channel, in order, and
the returned error. The argument is the outcome of `os.Open` followed by the
scan. -/
def readBatches {ε : Type} (file : Except ε (Scanned ε)) : List (List GoString) × Option ε :=
  match file with
  | .error e => ([], some e)
  | .ok scanned =>
    let (batch, sent) := readLoop scanned.lines [] []
    if 0 < batch.length then (sent ++ [batch], scanned.err) else (sent, scanned.err)

/-! ## The retrying batch processor -/

/-- The observable steps of a worker of the insertion pool. -/
inductive Event (ε : Type) where
  | insertBatch (batch : List GoString) (err : Option ε)
  | sleep (milliseconds : Nat)
  | logFinalFailure (err : ε)
  | saveFailedBatch (batch : List GoString)
  deriving DecidableEq

/-- The surroundings of a worker: the transactional insert, whose outcome
depends on the state `σ` of the database, and whether opening `failed.log` and
writing a line to it succeed. -/
structure Env (σ ε : Type) where
  insertBatch : σ → List GoString → Option ε × σ
  openFailedLog : Bool
  writeString : GoString → Bool

/-- The state threaded through a worker: the database, the text appended to
`failed.log` (one entry per successful `WriteString`), and the steps taken. -/
structure Worker (σ ε : Type) where
  db : σ
  failedLog : List GoString
  trace : List (Event ε)

/-- Embedding of `saveFailedBatch`: nothing is written when the file cannot be
opened; otherwise each code is written followed by a newline, a failed write
being logged and skipped. -/
def saveFailedBatch {σ ε : Type} (env : Env σ ε) (failedLog : List GoString)
    (batch : List GoString) : List GoString :=
  if env.openFailedLog then
    failedLog ++ (batch.map (fun code => code ++ goString "\n")).filter env.writeString
  else failedLog

/-- The loop `for i := 0; i < retryMax; i++` of `batchProcessor`; the first
argument is the number `retryMax - i` of iterations left. Returns the worker
state and `lastErr`. -/
def retryLoop {σ ε : Type} (env : Env σ ε) (batch : List GoString) :
    Nat → Nat → Option ε → Worker σ ε → Option ε × Worker σ ε
  | 0, _, lastErr, w => (lastErr, w)
  | left + 1, i, lastErr, w =>
    match env.insertBatch w.db batch with
    | (none, db) =>
      (lastErr, { w with db := db, trace := w.trace ++ [.insertBatch batch none] })
    | (some err, db) =>
      retryLoop env batch left (i + 1) (some err)
        { w with db := db,
                 trace := w.trace ++ [.insertBatch batch (some err), .sleep ((i + 1) * 100)] }

/-- The body of `for batch := range ch` in `batchProcessor`. -/
def processBatch {σ ε : Type} (env : Env σ ε) (batch : List GoString) (w : Worker σ ε) :
    Worker σ ε :=
  match retryLoop env batch retryMax 0 none w with
  | (some lastErr, w) =>
    { w with failedLog := saveFailedBatch env w.failedLog batch,
             trace := w.trace ++ [.logFinalFailure lastErr, .saveFailedBatch batch] }
  | (none, w) => w

/-- Embedding of `batchProcessor` for one worker: the batches it receives from
the channel, in order, until the channel is closed. -/
def batchProcessor {σ ε : Type} (env : Env σ ε) : List (List GoString) → Worker σ ε → Worker σ ε
  | [], w => w
  | batch :: rest, w => batchProcessor env rest (processBatch env batch w)

/-- The state of the database after `n` successive calls of `insertBatch` on
the same batch, whatever their outcomes. -/
def dbAfter {σ ε : Type} (env : Env σ ε) (batch : List GoString) : Nat → σ → σ
  | 0, db => db
  | n + 1, db => dbAfter env batch n (env.insertBatch db batch).2

/-- A database on which the first three insert calls fail and every later one
succeeds; the state counts the calls made so far. -/
def threeFailEnv : Env Nat Unit :=
  ⟨fun calls _ => (if calls < 3 then some () else none, calls + 1), true, fun _ => true⟩

/-- A database on which the first insert call fails and every later one
succeeds; the state counts the calls made so far. -/
def flakyEnv : Env Nat Unit :=
  ⟨fun calls _ => (if calls = 0 then some () else none, calls + 1), true, fun _ => true⟩

/-! ## The consistency verifier -/

/-- Embedding of `validateConsistency`. The arguments are the outcomes of
`calculateFileHash(path)`, `countFileLines(path)` and the `SELECT COUNT(*)`
query, and the hash taken before ingestion. -/
def validateConsistency {ε : Type} (currentHash : Except ε GoString) (fileLines : Except ε Int)
    (dbCount : Except ε Int) (originalHash : GoString) : Bool :=
  match currentHash with
  | .error _ => false
  | .ok currentHash =>
    if currentHash ≠ originalHash then false
    else
      match fileLines with
      | .error _ => false
      | .ok fileLines =>
        match dbCount with
        | .error _ => false
        | .ok dbCount => if fileLines ≠ dbCount then false else true

/-! ## Theorems -/

theorem decodeRune_ascii (b : Nat) (rest : GoString) (h : b < 128) :
    decodeRune (b :: rest) = (b, 1) := by
  simp [decodeRune, h]

theorem atoi_encodeRune_digit (b : Nat) (h1 : 48 ≤ b) (h2 : b ≤ 57) :
    atoi (encodeRune b) = .ok ((b : Int) - 48) := by
  have hb : b < 128 := by omega
  have e1 : ¬ (b = 45 ∨ b = 43) := by omega
  have e2 : ¬ (b = 45) := by omega
  simp only [encodeRune, hb, if_true, atoi, e1, if_false, atoiDigits, h1, h2, and_self]
  have : ((0 * 10 + (b - 48) : Nat) : Int) = (b : Int) - 48 := by omega
  simp only [this, e2, if_false]
  rw [if_pos (by omega)]

theorem list_length_17 {α : Type} (s : List α) (h : s.length = 17) :
    ∃ a0 a1 a2 a3 a4 a5 a6 a7 a8 a9 a10 a11 a12 a13 a14 a15 a16,
      s = [a0, a1, a2, a3, a4, a5, a6, a7, a8, a9, a10, a11, a12, a13, a14, a15, a16] := by
  match s, h with
  | [a0, a1, a2, a3, a4, a5, a6, a7, a8, a9, a10, a11, a12, a13, a14, a15, a16], _ =>
    exact ⟨a0, a1, a2, a3, a4, a5, a6, a7, a8, a9, a10, a11, a12, a13, a14, a15, a16, rfl⟩

theorem take_succ_set {α : Type} (l : List α) (i : Nat) (a : α) (h : i < l.length) :
    (l.set i a).take (i + 1) = l.take i ++ [a] := by
  rw [List.set_eq_take_append_cons_drop, if_pos h]
  rw [List.take_append_eq_append_take]
  simp [List.length_take, Nat.min_eq_left (Nat.le_of_lt h)]

theorem drop_set_after {α : Type} (l : List α) (i k : Nat) (a : α) :
    (l.set i a).drop (i + 1 + k) = l.drop (i + 1 + k) :=
  List.drop_set_of_lt a l (by omega)

theorem rangeDigits_digits (rest : GoString) :
    ∀ (i : Nat) (digits : List Int), allDigits rest → i + rest.length ≤ digits.length →
      rangeDigits rest 0 i digits
        = .ok (digits.take i ++ rest.map (fun (b : Nat) => (b : Int) - 48)
            ++ digits.drop (i + rest.length)) := by
  induction rest with
  | nil => intro i digits _ _; simp [rangeDigits]
  | cons b rest ih =>
    intro i digits hd hlen
    have hb := hd b (List.mem_cons_self _ _)
    have hrest : allDigits rest := fun c hc => hd c (List.mem_cons_of_mem _ hc)
    simp only [List.length_cons] at hlen
    have hi : i < digits.length := by omega
    rw [rangeDigits, decodeRune_ascii b rest (by omega), atoi_encodeRune_digit b hb.1 hb.2]
    simp only [hi, if_true]
    rw [ih (i + 1) _ hrest (by simp; omega)]
    congr 1
    rw [take_succ_set _ _ _ hi, drop_set_after]
    simp only [List.map_cons, List.length_cons, List.append_assoc, List.singleton_append]
    rw [show i + (rest.length + 1) = i + 1 + rest.length by omega]

theorem range_17 : List.range 17 = [0, 1, 2, 3, 4, 5, 6, 7, 8, 9, 10, 11, 12, 13, 14, 15, 16] := by
  decide

theorem weightedSum_digits (s : GoString) (h : s.length = 17) (hd : allDigits s) :
    weightedSum (s.map (fun (b : Nat) => (b : Int) - 48)) = (specWeightedSum s : Int) := by
  obtain ⟨a0, a1, a2, a3, a4, a5, a6, a7, a8, a9, a10, a11, a12, a13, a14, a15, a16, rfl⟩ :=
    list_length_17 s h
  simp only [allDigits, List.mem_cons, List.mem_singleton, forall_eq_or_imp, forall_eq,
    List.not_mem_nil, false_imp_iff, implies_true, and_true] at hd
  simp [weightedSum, specWeightedSum, range_17]
  omega

theorem calculate_digits (s : GoString) (h : s.length = 17) (hd : allDigits s) :
    calculateSSCCCheckDigit s = .ok (specCheckDigit s : Int) := by
  have hr := rangeDigits_digits s 0 (List.replicate 17 0) hd (by simp [h])
  simp only [List.take_zero, List.nil_append, Nat.zero_add, h] at hr
  rw [show List.drop 17 (List.replicate 17 (0 : Int)) = [] by decide, List.append_nil] at hr
  simp only [calculateSSCCCheckDigit, h, ne_eq, not_true_eq_false, if_false, hr,
    weightedSum_digits s h hd, specCheckDigit]
  refine congrArg Except.ok ?_
  generalize specWeightedSum s = n
  have h1 : Int.tmod (n : Int) 10 = (n : Int) % 10 := Int.tmod_eq_emod (by omega) (by omega)
  rw [h1, Int.tmod_eq_emod (by omega) (by omega)]
  omega

theorem calculate_copy (s : GoString) : CalculateSSCCCheckDigit s = calculateSSCCCheckDigit s :=
  rfl

theorem decodeRune_high (b : Nat) (rest : GoString) (h : 128 ≤ b) :
    128 ≤ (decodeRune (b :: rest)).1 := by
  rcases rest with _ | ⟨s1, _ | ⟨s2, _ | ⟨s3, rest⟩⟩⟩ <;> simp only [decodeRune] <;>
    split_ifs <;> first | omega | (simp only [runeError]; omega)

theorem atoiDigits_nondigit (c : Nat) (rest : GoString) (n : Nat)
    (h : ¬ (48 ≤ c ∧ c ≤ 57)) : atoiDigits (c :: rest) n = none := by
  simp [atoiDigits, h]

theorem atoi_head_high (c : Nat) (rest : GoString) (h : 58 ≤ c) :
    atoi (c :: rest) = .error .invalidText := by
  have e1 : ¬ (c = 45 ∨ c = 43) := by omega
  simp only [atoi, e1, if_false, atoiDigits_nondigit c rest 0 (by omega)]

theorem atoi_encodeRune_high (r : Nat) (h : 128 ≤ r) :
    atoi (encodeRune r) = .error .invalidText := by
  unfold encodeRune
  split_ifs
  · omega
  all_goals exact atoi_head_high _ _ (by omega)

theorem atoi_ascii_nondigit (b : Nat) (h : b < 128) (hb : ¬ (48 ≤ b ∧ b ≤ 57)) :
    atoi (encodeRune b) = .error .invalidText := by
  simp only [encodeRune, h, if_true, atoi]
  by_cases hs : b = 45 ∨ b = 43
  · simp [hs]
  · simp [hs, atoiDigits, hb]

theorem atoi_nondigit (b : Nat) (rest : GoString) (hb : ¬ (48 ≤ b ∧ b ≤ 57)) :
    atoi (encodeRune (decodeRune (b :: rest)).1) = .error .invalidText := by
  by_cases h : b < 128
  · rw [decodeRune_ascii b rest h]
    exact atoi_ascii_nondigit b h hb
  · exact atoi_encodeRune_high _ (decodeRune_high b rest (by omega))

theorem rangeDigits_nondigit (rest : GoString) :
    ∀ (i : Nat) (digits : List Int), (∃ b ∈ rest, ¬ (48 ≤ b ∧ b ≤ 57)) →
      i + rest.length ≤ digits.length →
      rangeDigits rest 0 i digits = .error .invalidDigit := by
  induction rest with
  | nil => intro i digits h; simp at h
  | cons b rest ih =>
    intro i digits hex hlen
    simp only [List.length_cons] at hlen
    by_cases hb : 48 ≤ b ∧ b ≤ 57
    · have hex2 : ∃ c ∈ rest, ¬ (48 ≤ c ∧ c ≤ 57) := by
        obtain ⟨c, hc, hn⟩ := hex
        rcases List.mem_cons.1 hc with rfl | hc
        · exact absurd hb hn
        · exact ⟨c, hc, hn⟩
      have hi : i < digits.length := by omega
      rw [rangeDigits, decodeRune_ascii b rest (by omega), atoi_encodeRune_digit b hb.1 hb.2]
      simp only [hi, if_true]
      exact ih (i + 1) _ hex2 (by simp; omega)
    · rw [rangeDigits, atoi_nondigit b rest hb]

/-- C1: for every string of exactly 17 ASCII decimal digits, both copies of the
check-digit routine return, without error, `(10 - (sum mod 10)) mod 10`, where
`sum` adds the digit values from the left with weight 3 at even indices and 1
at odd ones; the value is between 0 and 9. -/
theorem check_digit_of_17_digits (s : GoString) (hlen : s.length = 17) (hd : allDigits s) :
    calculateSSCCCheckDigit s = .ok (((10 - specWeightedSum s % 10) % 10 : Nat) : Int) ∧
    CalculateSSCCCheckDigit s = .ok (((10 - specWeightedSum s % 10) % 10 : Nat) : Int) ∧
    (10 - specWeightedSum s % 10) % 10 ≤ 9 := by
  refine ⟨?_, ?_, by omega⟩
  · exact calculate_digits s hlen hd
  · rw [calculate_copy]; exact calculate_digits s hlen hd

/-- C1 at the body "13597920999999982": the weighted sum is 215 and both
routines return 5. -/
theorem check_digit_of_17_digits_witness :
    (goString "13597920999999982").length = 17 ∧ allDigits (goString "13597920999999982") ∧
    specWeightedSum (goString "13597920999999982") = 215 ∧
    calculateSSCCCheckDigit (goString "13597920999999982") = .ok 5 ∧
    CalculateSSCCCheckDigit (goString "13597920999999982") = .ok 5 :=
  ⟨by decide, by decide, by decide,
    (check_digit_of_17_digits (goString "13597920999999982") (by decide) (by decide)).1,
    (check_digit_of_17_digits (goString "13597920999999982") (by decide) (by decide)).2.1⟩

/-- C2 as stated fails: a body of 16 characters, the first of which takes two
bytes, is 17 bytes long, passes the length test and is rejected for its
non-digit character instead. -/
theorem length_error_counterexample :
    runeCount (goString "é234567890123456") = 16 ∧
    (goString "é234567890123456").length = 17 ∧
    calculateSSCCCheckDigit (goString "é234567890123456") = .error .invalidDigit ∧
    calculateSSCCCheckDigit (goString "é234567890123456") ≠ .error .invalidLength :=
  ⟨by decide, by decide, by rfl, by rw [show calculateSSCCCheckDigit
    (goString "é234567890123456") = .error .invalidDigit by rfl]; simp⟩

/-- C2, amended: every body whose length in bytes is not 17 is rejected with
the length error, and with no other outcome. -/
theorem length_error_of_bytes (s : GoString) (hlen : s.length ≠ 17) :
    calculateSSCCCheckDigit s = .error .invalidLength := by
  simp [calculateSSCCCheckDigit, hlen]

/-- C2, amended, at the three-byte body "123". -/
theorem length_error_of_bytes_witness :
    (goString "123").length ≠ 17 ∧
    calculateSSCCCheckDigit (goString "123") = .error .invalidLength :=
  ⟨by decide, length_error_of_bytes (goString "123") (by decide)⟩

theorem runesFrom_digits (s : GoString) (hd : allDigits s) : runesFrom s 0 = s := by
  induction s with
  | nil => rfl
  | cons b rest ih =>
    have hb := hd b (List.mem_cons_self _ _)
    have hrest : allDigits rest := fun c hc => hd c (List.mem_cons_of_mem _ hc)
    rw [runesFrom, decodeRune_ascii b rest (by omega)]
    simp only [Nat.sub_self]
    rw [ih hrest]

theorem nondigit_byte_of_rune (s : GoString) (h : ∃ r ∈ runes s, ¬ (48 ≤ r ∧ r ≤ 57)) :
    ∃ b ∈ s, ¬ (48 ≤ b ∧ b ≤ 57) := by
  by_contra hcon
  have hd : allDigits s := by
    intro b hb
    by_contra hb2
    exact hcon ⟨b, hb, hb2⟩
  obtain ⟨r, hr, hnr⟩ := h
  rw [runes, runesFrom_digits s hd] at hr
  exact hnr (hd r hr)

/-- C3 as stated fails: the body "12a" contains a character that is not a
decimal digit, but its length is tested first and it is rejected with the
length error. -/
theorem digit_error_counterexample :
    (∃ r ∈ runes (goString "12a"), ¬ (48 ≤ r ∧ r ≤ 57)) ∧
    calculateSSCCCheckDigit (goString "12a") = .error .invalidLength ∧
    calculateSSCCCheckDigit (goString "12a") ≠ .error .invalidDigit :=
  ⟨by decide, by rfl, by rw [show calculateSSCCCheckDigit
    (goString "12a") = .error .invalidLength by rfl]; simp⟩

/-- C3, amended: every body of exactly 17 bytes that contains a character
other than a decimal digit is rejected with the non-digit error. -/
theorem digit_error_of_17_bytes (s : GoString) (hlen : s.length = 17)
    (hnd : ∃ r ∈ runes s, ¬ (48 ≤ r ∧ r ≤ 57)) :
    calculateSSCCCheckDigit s = .error .invalidDigit := by
  have hr := rangeDigits_nondigit s 0 (List.replicate 17 0) (nondigit_byte_of_rune s hnd)
    (by simp [hlen])
  simp only [calculateSSCCCheckDigit, hlen, ne_eq, not_true_eq_false, if_false, hr]

/-- C3, amended, at the body "1359792099999998x" and at the 17-byte body
"é234567890123456" of 16 characters. -/
theorem digit_error_of_17_bytes_witness :
    (goString "1359792099999998x").length = 17 ∧
    (∃ r ∈ runes (goString "1359792099999998x"), ¬ (48 ≤ r ∧ r ≤ 57)) ∧
    calculateSSCCCheckDigit (goString "1359792099999998x") = .error .invalidDigit ∧
    calculateSSCCCheckDigit (goString "é234567890123456") = .error .invalidDigit :=
  ⟨by decide, by decide,
    digit_error_of_17_bytes (goString "1359792099999998x") (by decide) (by decide),
    digit_error_of_17_bytes (goString "é234567890123456") (by decide) (by decide)⟩

theorem fmtDigits_pad9 (n : Nat) (h : n < 1000000000) :
    List.replicate (9 - (fmtDigits 20 n []).length) 48 ++ fmtDigits 20 n [] = specZeroPad9 n := by
  simp only [specZeroPad9, List.map_cons, List.map_nil]
  by_cases h1 : n < 10
  · rw [fmtDigits, if_neg (by omega)]
    simp only [List.length_cons, List.length_nil, List.replicate, List.cons_append, List.nil_append, Nat.reduceAdd, Nat.reduceSub, Nat.reducePow, List.cons.injEq, and_true, true_and, Nat.div_one]
    omega
  by_cases h2 : n < 100
  · rw [fmtDigits, if_pos (by omega), fmtDigits, if_neg (by omega)]
    simp only [List.length_cons, List.length_nil, List.replicate, List.cons_append, List.nil_append, Nat.reduceAdd, Nat.reduceSub, Nat.reducePow, List.cons.injEq, and_true, true_and, Nat.div_one]
    omega
  by_cases h3 : n < 1000
  · rw [fmtDigits, if_pos (by omega), fmtDigits, if_pos (by omega), fmtDigits, if_neg (by omega)]
    simp only [List.length_cons, List.length_nil, List.replicate, List.cons_append, List.nil_append, Nat.reduceAdd, Nat.reduceSub, Nat.reducePow, List.cons.injEq, and_true, true_and, Nat.div_one]
    omega
  by_cases h4 : n < 10000
  · rw [fmtDigits, if_pos (by omega), fmtDigits, if_pos (by omega), fmtDigits, if_pos (by omega), fmtDigits, if_neg (by omega)]
    simp only [List.length_cons, List.length_nil, List.replicate, List.cons_append, List.nil_append, Nat.reduceAdd, Nat.reduceSub, Nat.reducePow, List.cons.injEq, and_true, true_and, Nat.div_one]
    omega
  by_cases h5 : n < 100000
  · rw [fmtDigits, if_pos (by omega), fmtDigits, if_pos (by omega), fmtDigits, if_pos (by omega), fmtDigits, if_pos (by omega), fmtDigits, if_neg (by omega)]
    simp only [List.length_cons, List.length_nil, List.replicate, List.cons_append, List.nil_append, Nat.reduceAdd, Nat.reduceSub, Nat.reducePow, List.cons.injEq, and_true, true_and, Nat.div_one]
    omega
  by_cases h6 : n < 1000000
  · rw [fmtDigits, if_pos (by omega), fmtDigits, if_pos (by omega), fmtDigits, if_pos (by omega), fmtDigits, if_pos (by omega), fmtDigits, if_pos (by omega), fmtDigits, if_neg (by omega)]
    simp only [List.length_cons, List.length_nil, List.replicate, List.cons_append, List.nil_append, Nat.reduceAdd, Nat.reduceSub, Nat.reducePow, List.cons.injEq, and_true, true_and, Nat.div_one]
    omega
  by_cases h7 : n < 10000000
  · rw [fmtDigits, if_pos (by omega), fmtDigits, if_pos (by omega), fmtDigits, if_pos (by omega), fmtDigits, if_pos (by omega), fmtDigits, if_pos (by omega), fmtDigits, if_pos (by omega), fmtDigits, if_neg (by omega)]
    simp only [List.length_cons, List.length_nil, List.replicate, List.cons_append, List.nil_append, Nat.reduceAdd, Nat.reduceSub, Nat.reducePow, List.cons.injEq, and_true, true_and, Nat.div_one]
    omega
  by_cases h8 : n < 100000000
  · rw [fmtDigits, if_pos (by omega), fmtDigits, if_pos (by omega), fmtDigits, if_pos (by omega), fmtDigits, if_pos (by omega), fmtDigits, if_pos (by omega), fmtDigits, if_pos (by omega), fmtDigits, if_pos (by omega), fmtDigits, if_neg (by omega)]
    simp only [List.length_cons, List.length_nil, List.replicate, List.cons_append, List.nil_append, Nat.reduceAdd, Nat.reduceSub, Nat.reducePow, List.cons.injEq, and_true, true_and, Nat.div_one]
    omega
  · rw [fmtDigits, if_pos (by omega), fmtDigits, if_pos (by omega), fmtDigits, if_pos (by omega), fmtDigits, if_pos (by omega), fmtDigits, if_pos (by omega), fmtDigits, if_pos (by omega), fmtDigits, if_pos (by omega), fmtDigits, if_pos (by omega), fmtDigits, if_neg (by omega)]
    simp only [List.length_cons, List.length_nil, List.replicate, List.cons_append, List.nil_append, Nat.reduceAdd, Nat.reduceSub, Nat.reducePow, List.cons.injEq, and_true, true_and, Nat.div_one]
    omega

theorem fmtInteger_pad9 (n : Nat) (h : n < 1000000000) :
    fmtInteger (n : Int) 9 = specZeroPad9 n := by
  have hneg : ¬ ((n : Int) < 0) := by omega
  simp only [fmtInteger, hneg, decide_False, Int.natAbs_ofNat, Bool.false_eq_true, if_false]
  exact fmtDigits_pad9 n h

theorem fmtInteger_digit (c : Nat) (h : c < 10) : fmtInteger (c : Int) 0 = [48 + c] := by
  have hneg : ¬ ((c : Int) < 0) := by omega
  simp only [fmtInteger, hneg, decide_False, Int.natAbs_ofNat, Bool.false_eq_true, if_false]
  rw [fmtDigits, if_neg (by omega)]
  simp

theorem specZeroPad9_length (n : Nat) : (specZeroPad9 n).length = 9 := by
  simp [specZeroPad9]

theorem specZeroPad9_digits (n : Nat) : allDigits (specZeroPad9 n) := by
  intro b hb
  simp only [specZeroPad9, List.map_cons, List.map_nil, List.mem_cons, List.mem_singleton,
    List.not_mem_nil, or_false] at hb
  omega

theorem specBody_length (n : Nat) : (specBody n).length = 17 := by
  simp only [specBody, List.length_append, specZeroPad9_length]
  rfl

theorem specBody_digits (n : Nat) : allDigits (specBody n) := by
  intro b hb
  simp only [specBody, List.mem_append] at hb
  rcases hb with (hb | hb) | hb
  · exact (by decide : allDigits (goString "1")) b hb
  · exact (by decide : allDigits (goString "1111110")) b hb
  · exact specZeroPad9_digits n b hb

theorem specCheckDigit_lt (s : GoString) : specCheckDigit s < 10 := by
  unfold specCheckDigit
  omega

theorem encodeSerial_nat (n : Nat) (h : n < 1000000000) :
    encodeSerial (n : Int) = .ok (specBody n ++ [48 + specCheckDigit (specBody n)]) := by
  have hb : fixedDigit ++ companyCode ++ fmtInteger (n : Int) 9 = specBody n := by
    rw [fmtInteger_pad9 n h]
    rfl
  simp only [encodeSerial, hb, calculate_digits (specBody n) (specBody_length n) (specBody_digits n),
    fmtInteger_digit _ (specCheckDigit_lt _)]

theorem specZeroPad9_injective (n m : Nat) (hn : n < 1000000000) (hm : m < 1000000000)
    (h : specZeroPad9 n = specZeroPad9 m) : n = m := by
  simp only [specZeroPad9, List.map_cons, List.map_nil, List.cons.injEq, and_true,
    Nat.reducePow, Nat.div_one] at h
  omega

/-- C4: for every serial between 0 and 999999999, and so for every serial of the
configured range, the encoding step of the worker succeeds with the 18-digit
text made of "1", "1111110", the serial written with nine digits, and the
check digit that the check-digit routine returns for that 17-digit body. -/
theorem encode_serial_code (serial : Int) (h0 : 0 ≤ serial) (h1 : serial ≤ 999999999) :
    encodeSerial serial
      = .ok (goString "1" ++ goString "1111110" ++ specZeroPad9 serial.toNat
          ++ [48 + specCheckDigit (specBody serial.toNat)]) ∧
    calculateSSCCCheckDigit (goString "1" ++ goString "1111110" ++ specZeroPad9 serial.toNat)
      = .ok (specCheckDigit (specBody serial.toNat) : Int) ∧
    (goString "1" ++ goString "1111110" ++ specZeroPad9 serial.toNat
      ++ [48 + specCheckDigit (specBody serial.toNat)]).length = 18 ∧
    allDigits (goString "1" ++ goString "1111110" ++ specZeroPad9 serial.toNat
      ++ [48 + specCheckDigit (specBody serial.toNat)]) := by
  obtain ⟨n, rfl⟩ := Int.eq_ofNat_of_zero_le h0
  have hn : n < 1000000000 := by omega
  simp only [Int.toNat_ofNat]
  refine ⟨encodeSerial_nat n hn, ?_, ?_, ?_⟩
  · exact calculate_digits (specBody n) (specBody_length n) (specBody_digits n)
  · have := specBody_length n
    simp only [specBody] at this
    simp only [List.length_append, List.length_singleton] at this ⊢
    omega
  · intro b hb
    rcases List.mem_append.1 hb with hb | hb
    · exact specBody_digits n b hb
    · have := specCheckDigit_lt (specBody n)
      simp only [List.mem_singleton] at hb
      omega

/-- C4 at the first serial of the configured range: body "11111110100000000",
weighted sum 18, check digit 2, code "111111101000000002". -/
theorem encode_serial_code_witness :
    (0 : Int) ≤ startSerial ∧ startSerial ≤ 999999999 ∧
    specBody startSerial.toNat = goString "11111110100000000" ∧
    specWeightedSum (specBody startSerial.toNat) = 18 ∧
    specCheckDigit (specBody startSerial.toNat) = 2 ∧
    encodeSerial startSerial = .ok (goString "111111101000000002") :=
  ⟨by decide, by decide, by decide, by decide, by decide,
    (encode_serial_code startSerial (by decide) (by decide)).1⟩

/-- C8: two distinct serials between 0 and 999999999 are encoded to distinct
18-digit codes. -/
theorem encode_serial_distinct (s t : Int) (hs0 : 0 ≤ s) (hs1 : s ≤ 999999999)
    (ht0 : 0 ≤ t) (ht1 : t ≤ 999999999) (hne : s ≠ t) :
    encodeSerial s ≠ encodeSerial t := by
  obtain ⟨n, rfl⟩ := Int.eq_ofNat_of_zero_le hs0
  obtain ⟨m, rfl⟩ := Int.eq_ofNat_of_zero_le ht0
  have hn : n < 1000000000 := by omega
  have hm : m < 1000000000 := by omega
  rw [encodeSerial_nat n hn, encodeSerial_nat m hm]
  intro heq
  have hlist := Except.ok.inj heq
  have hbody : specBody n = specBody m :=
    (List.append_inj hlist (by rw [specBody_length, specBody_length])).1
  have hpad : specZeroPad9 n = specZeroPad9 m := by
    simp only [specBody] at hbody
    exact List.append_cancel_left hbody
  exact hne (by rw [specZeroPad9_injective n m hn hm hpad])

/-- C8 at the first two serials of the configured range. -/
theorem encode_serial_distinct_witness :
    startSerial ≠ startSerial + 1 ∧
    encodeSerial startSerial ≠ encodeSerial (startSerial + 1) :=
  ⟨by decide, encode_serial_distinct startSerial (startSerial + 1) (by decide) (by decide)
    (by decide) (by decide) (by decide)⟩

theorem readLoop_spec (lines : List GoString) :
    ∀ (batch : List GoString) (sent : List (List GoString)), batch.length < batchSize →
      (readLoop lines batch sent).1.length < batchSize ∧
      ∃ fresh : List (List GoString),
        (readLoop lines batch sent).2 = sent ++ fresh ∧
        (∀ b ∈ fresh, b.length = batchSize) ∧
        fresh.flatten ++ (readLoop lines batch sent).1 = batch ++ lines ∧
        batchSize * fresh.length + (readLoop lines batch sent).1.length
          = batch.length + lines.length := by
  induction lines with
  | nil =>
    intro batch sent hb
    exact ⟨hb, [], by simp [readLoop], by simp, by simp [readLoop], by simp [readLoop]⟩
  | cons line rest ih =>
    intro batch sent hb
    by_cases hfull : batchSize ≤ (batch ++ [line]).length
    · have hlen : (batch ++ [line]).length = batchSize := by
        simp only [List.length_append, List.length_singleton] at hfull ⊢
        omega
      have hstep : readLoop (line :: rest) batch sent
          = readLoop rest [] (sent ++ [batch ++ [line]]) := by
        simp only [readLoop, hfull, if_true]
      obtain ⟨h1, fresh, h2, h3, h4, h5⟩ :=
        ih [] (sent ++ [batch ++ [line]]) (by simp [batchSize])
      rw [hstep]
      refine ⟨h1, (batch ++ [line]) :: fresh, ?_, ?_, ?_, ?_⟩
      · rw [h2]; simp
      · intro b hmem
        rcases List.mem_cons.1 hmem with rfl | hmem
        · exact hlen
        · exact h3 b hmem
      · rw [List.flatten_cons, List.append_assoc, h4]; simp
      · simp only [List.length_cons, List.length_nil, Nat.zero_add] at h5 ⊢
        simp only [List.length_append, List.length_singleton] at hlen
        rw [Nat.mul_add, Nat.mul_one]
        omega
    · have hstep : readLoop (line :: rest) batch sent = readLoop rest (batch ++ [line]) sent := by
        simp only [readLoop, hfull, if_false]
      obtain ⟨h1, fresh, h2, h3, h4, h5⟩ := ih (batch ++ [line]) sent (by omega)
      rw [hstep]
      refine ⟨h1, fresh, h2, h3, ?_, ?_⟩
      · rw [h4]; simp
      · simp only [List.length_append, List.length_cons, List.length_nil] at h5 hfull ⊢
        omega

/-- C7: for a file whose lines are scanned without error, the batches sent by
`readBatches`, concatenated in order, are exactly the lines of the file; no
batch is empty or longer than 200 lines, every batch but the last has exactly
200 lines, and there are ceil(N/200) batches for N lines. -/
theorem readBatches_partition {ε : Type} (lines : List GoString) :
    (readBatches (Except.ok ⟨lines, none⟩ : Except ε (Scanned ε))).2 = none ∧
    (readBatches (Except.ok ⟨lines, none⟩ : Except ε (Scanned ε))).1.flatten = lines ∧
    (∀ b ∈ (readBatches (Except.ok ⟨lines, none⟩ : Except ε (Scanned ε))).1,
      b ≠ [] ∧ b.length ≤ 200) ∧
    (∀ b ∈ (readBatches (Except.ok ⟨lines, none⟩ : Except ε (Scanned ε))).1.dropLast,
      b.length = 200) ∧
    (readBatches (Except.ok ⟨lines, none⟩ : Except ε (Scanned ε))).1.length
      = (lines.length + 199) / 200 := by
  obtain ⟨h1, fresh, h2, h3, h4, h5⟩ := readLoop_spec lines [] [] (by simp [batchSize])
  simp only [List.nil_append, List.length_nil, Nat.zero_add] at h2 h4 h5
  simp only [batchSize] at h1 h3 h5
  by_cases hrest : 0 < (readLoop lines [] []).1.length
  · have hval : readBatches (Except.ok ⟨lines, none⟩ : Except ε (Scanned ε))
        = (fresh ++ [(readLoop lines [] []).1], none) := by
      simp only [readBatches, hrest, if_true, h2]
    rw [hval]
    refine ⟨rfl, ?_, ?_, ?_, ?_⟩
    · simp [h4]
    · intro b hb
      rcases List.mem_append.1 hb with hb | hb
      · have := h3 b hb
        exact ⟨by intro hnil; rw [hnil] at this; simp at this, by omega⟩
      · simp only [List.mem_singleton] at hb
        subst hb
        exact ⟨by intro hnil; rw [hnil] at hrest; simp at hrest, by omega⟩
    · intro b hb
      rw [List.dropLast_concat] at hb
      exact h3 b hb
    · dsimp only
      simp only [List.length_append, List.length_singleton]
      omega
  · have hval : readBatches (Except.ok ⟨lines, none⟩ : Except ε (Scanned ε))
        = (fresh, none) := by
      simp only [readBatches, hrest, if_false, h2]
    rw [hval]
    have hnil : (readLoop lines [] []).1 = [] := by
      cases hc : (readLoop lines [] []).1 with
      | nil => rfl
      | cons a l => rw [hc] at hrest; simp at hrest
    refine ⟨rfl, ?_, ?_, ?_, ?_⟩
    · rw [hnil, List.append_nil] at h4; exact h4
    · intro b hb
      have := h3 b hb
      exact ⟨by intro hn; rw [hn] at this; simp at this, by omega⟩
    · intro b hb
      exact h3 b (List.dropLast_subset _ hb)
    · rw [hnil] at h5
      simp only [List.length_nil, Nat.add_zero] at h5
      dsimp only
      omega

theorem specWeightedSum_17 (a0 a1 a2 a3 a4 a5 a6 a7 a8 a9 a10 a11 a12 a13 a14 a15 a16 : Nat) :
    specWeightedSum [a0, a1, a2, a3, a4, a5, a6, a7, a8, a9, a10, a11, a12, a13, a14, a15, a16]
      = (a0 - 48) * 3 + (a1 - 48) + (a2 - 48) * 3 + (a3 - 48) + (a4 - 48) * 3 + (a5 - 48) + (a6 - 48) * 3 + (a7 - 48) + (a8 - 48) * 3 + (a9 - 48) + (a10 - 48) * 3 + (a11 - 48) + (a12 - 48) * 3 + (a13 - 48) + (a14 - 48) * 3 + (a15 - 48) + (a16 - 48) * 3 := by
  simp [specWeightedSum, range_17]
  omega

theorem specWeightedSum_eq_weightedFrom (s : GoString) (hs : s.length = 17) :
    specWeightedSum s = weightedFrom 0 s := by
  obtain ⟨a0, a1, a2, a3, a4, a5, a6, a7, a8, a9, a10, a11, a12, a13, a14, a15, a16, rfl⟩ :=
    list_length_17 s hs
  rw [specWeightedSum_17]
  simp [weightedFrom]
  omega

theorem weightedFrom_set (s : GoString) :
    ∀ (p i d a : Nat), s[i]? = some a →
      weightedFrom p (s.set i d) + (a - 48) * (if (p + i) % 2 = 0 then 3 else 1)
        = weightedFrom p s + (d - 48) * (if (p + i) % 2 = 0 then 3 else 1) := by
  induction s with
  | nil => intro p i d a h; simp at h
  | cons b rest ih =>
    intro p i d a h
    cases i with
    | zero =>
      simp only [List.getElem?_cons_zero, Option.some.injEq] at h
      subst h
      simp only [List.set_cons_zero, weightedFrom, Nat.add_zero]
      omega
    | succ k =>
      simp only [List.getElem?_cons_succ] at h
      have := ih (p + 1) k d a h
      simp only [List.set_cons_succ, weightedFrom]
      rw [show p + (k + 1) = p + 1 + k by omega]
      omega

theorem specCheckDigit_set (s : GoString) (hs : s.length = 17) (hds : allDigits s)
    (i d : Nat) (hi : i < 17) (hd : 48 ≤ d ∧ d ≤ 57) (hne : s[i]? ≠ some d) :
    specCheckDigit s ≠ specCheckDigit (s.set i d) := by
  have his : i < s.length := by omega
  have hget : s[i]? = some s[i] := List.getElem?_eq_getElem his
  have ha := hds _ (List.getElem_mem his)
  have hne2 : s[i] ≠ d := fun h => hne (by rw [hget, h])
  have hset := weightedFrom_set s 0 i d s[i] hget
  simp only [specCheckDigit, specWeightedSum_eq_weightedFrom s hs,
    specWeightedSum_eq_weightedFrom (s.set i d) (by simp [hs])]
  generalize weightedFrom 0 (s.set i d) = x at hset ⊢
  generalize weightedFrom 0 s = y at hset ⊢
  generalize s[i] = a at ha hne2 hset
  split_ifs at hset <;> omega

theorem eq_set_of_differ_at {α : Type} (s t : List α) (hlen : s.length = t.length) (i : Nat)
    (d : α) (hd : t[i]? = some d) (hsame : ∀ j, j ≠ i → s[j]? = t[j]?) : t = s.set i d := by
  apply List.ext_getElem?
  intro j
  by_cases hj : j = i
  · subst hj
    have hlt : j < t.length := by
      rcases Nat.lt_or_ge j t.length with h | h
      · exact h
      · rw [List.getElem?_eq_none h] at hd; cases hd
    rw [hd, List.getElem?_set_self (by omega)]
  · rw [List.getElem?_set_ne (fun h => hj h.symm), hsame j hj]

theorem specCheckDigit_substitution (s t : GoString) (hs : s.length = 17) (ht : t.length = 17)
    (hds : allDigits s) (hdt : allDigits t) (i : Nat) (hi : i < 17)
    (hdiff : s[i]? ≠ t[i]?) (hsame : ∀ j, j ≠ i → s[j]? = t[j]?) :
    specCheckDigit s ≠ specCheckDigit t := by
  have hit : i < t.length := by omega
  have hd : t[i]? = some t[i] := List.getElem?_eq_getElem hit
  have heq := eq_set_of_differ_at s t (by omega) i t[i] hd hsame
  rw [heq]
  exact specCheckDigit_set s hs hds i t[i] hi (hdt _ (List.getElem_mem hit))
    (by rw [← hd]; exact hdiff)

theorem specFullSum_append (s : GoString) (hs : s.length = 17) (k : Nat) :
    specFullSum (s ++ [k]) = specWeightedSum s + (k - 48) := by
  have h1 : (s ++ [k]).take 17 = s := by
    rw [← hs, List.take_left]
  have h2 : (s ++ [k]).getD 17 48 = k := by
    rw [List.getD_eq_getElem?_getD, ← hs, List.getElem?_append_right (Nat.le_refl _)]
    simp
  rw [specFullSum, h1, h2]

/-- C10: two strings of 17 decimal digits that differ in exactly one position
get different check digits from the check-digit routine. Equivalently, for the
valid 18-digit code made of the first string and its check digit, the weighted
sum including the check digit is divisible by 10, and it no longer is once one
digit of the body is changed (giving the second string) or once the check digit
is changed. -/
theorem single_substitution_detected (s t : GoString) (hs : s.length = 17) (ht : t.length = 17)
    (hds : allDigits s) (hdt : allDigits t) (i : Nat) (hi : i < 17)
    (hdiff : s[i]? ≠ t[i]?) (hsame : ∀ j < 17, j ≠ i → s[j]? = t[j]?) :
    (∃ c d : Nat, c ≤ 9 ∧ d ≤ 9 ∧ calculateSSCCCheckDigit s = .ok (c : Int) ∧
      calculateSSCCCheckDigit t = .ok (d : Int) ∧ c ≠ d ∧
      specFullSum (s ++ [48 + c]) % 10 = 0 ∧
      specFullSum (t ++ [48 + c]) % 10 ≠ 0 ∧
      ∀ k, 48 ≤ k → k ≤ 57 → k ≠ 48 + c → specFullSum (s ++ [k]) % 10 ≠ 0) := by
  have hall : ∀ j, j ≠ i → s[j]? = t[j]? := by
    intro j hj
    rcases Nat.lt_or_ge j 17 with h | h
    · exact hsame j h hj
    · rw [List.getElem?_eq_none (by omega), List.getElem?_eq_none (by omega)]
  have hne := specCheckDigit_substitution s t hs ht hds hdt i hi hdiff hall
  have hcs := specCheckDigit_lt s
  have hct := specCheckDigit_lt t
  refine ⟨specCheckDigit s, specCheckDigit t, by omega, by omega, calculate_digits s hs hds,
    calculate_digits t ht hdt, hne, ?_, ?_, ?_⟩
  · rw [specFullSum_append s hs]
    unfold specCheckDigit
    omega
  · rw [specFullSum_append t ht]
    unfold specCheckDigit at hne ⊢
    omega
  · intro k hk1 hk2 hk
    rw [specFullSum_append s hs]
    unfold specCheckDigit at hk
    omega

/-- C10 at the bodies "13597920999999982" and "13597920999999983", which
differ in the last position only: the check digits are 5 and 2. -/
theorem single_substitution_detected_witness :
    calculateSSCCCheckDigit (goString "13597920999999982") = .ok 5 ∧
    calculateSSCCCheckDigit (goString "13597920999999983") = .ok 2 ∧
    ∃ c d : Nat, c ≤ 9 ∧ d ≤ 9 ∧
      calculateSSCCCheckDigit (goString "13597920999999982") = .ok (c : Int) ∧
      calculateSSCCCheckDigit (goString "13597920999999983") = .ok (d : Int) ∧ c ≠ d ∧
      specFullSum (goString "13597920999999982" ++ [48 + c]) % 10 = 0 ∧
      specFullSum (goString "13597920999999983" ++ [48 + c]) % 10 ≠ 0 ∧
      ∀ k, 48 ≤ k → k ≤ 57 → k ≠ 48 + c →
        specFullSum (goString "13597920999999982" ++ [k]) % 10 ≠ 0 :=
  ⟨by rfl, by rfl,
    single_substitution_detected (goString "13597920999999982") (goString "13597920999999983")
      (by decide) (by decide) (by decide) (by decide) 16 (by decide) (by decide) (by decide)⟩

theorem retryLoop_fail {σ ε : Type} (env : Env σ ε) (batch : List GoString) (left i : Nat)
    (lastErr : Option ε) (w : Worker σ ε) (e : ε) (db : σ)
    (h : env.insertBatch w.db batch = (some e, db)) :
    retryLoop env batch (left + 1) i lastErr w
      = retryLoop env batch left (i + 1) (some e)
          { w with db := db,
                   trace := w.trace ++ [.insertBatch batch (some e), .sleep ((i + 1) * 100)] } := by
  simp only [retryLoop, h]

theorem retryLoop_trace {σ ε : Type} (env : Env σ ε) (batch : List GoString) (left : Nat) :
    ∀ (i : Nat) (lastErr : Option ε) (w : Worker σ ε),
      (∃ t, (retryLoop env batch left i lastErr w).2.trace = w.trace ++ t) ∧
      (retryLoop env batch left i lastErr w).2.failedLog = w.failedLog := by
  induction left with
  | zero => intro i lastErr w; exact ⟨⟨[], by simp [retryLoop]⟩, rfl⟩
  | succ left ih =>
    intro i lastErr w
    cases hr : env.insertBatch w.db batch with
    | mk r db =>
      cases r with
      | none => exact ⟨⟨[.insertBatch batch none], by simp [retryLoop, hr]⟩, by simp [retryLoop, hr]⟩
      | some e =>
        rw [retryLoop_fail env batch left i lastErr w e db hr]
        obtain ⟨⟨t, ht⟩, hl⟩ := ih (i + 1) (some e)
          { w with db := db,
                   trace := w.trace ++ [.insertBatch batch (some e), .sleep ((i + 1) * 100)] }
        exact ⟨⟨[.insertBatch batch (some e), .sleep ((i + 1) * 100)] ++ t, by
          rw [ht]; simp⟩, hl⟩

theorem retryLoop_first {σ ε : Type} (env : Env σ ε) (batch : List GoString) (left i : Nat)
    (lastErr : Option ε) (w : Worker σ ε) :
    ∃ t, (retryLoop env batch (left + 1) i lastErr w).2.trace
      = w.trace ++ Event.insertBatch batch (env.insertBatch w.db batch).1 :: t := by
  cases hr : env.insertBatch w.db batch with
  | mk r db =>
    cases r with
    | none => exact ⟨[], by simp [retryLoop, hr]⟩
    | some e =>
      rw [retryLoop_fail env batch left i lastErr w e db hr]
      obtain ⟨⟨t, ht⟩, _⟩ := retryLoop_trace env batch left (i + 1) (some e)
        { w with db := db,
                 trace := w.trace ++ [.insertBatch batch (some e), .sleep ((i + 1) * 100)] }
      exact ⟨Event.sleep ((i + 1) * 100) :: t, by rw [ht]; simp⟩

theorem processBatch_after_loop {σ ε : Type} (env : Env σ ε) (batch : List GoString)
    (w : Worker σ ε) :
    (∃ t, (processBatch env batch w).trace
      = (retryLoop env batch retryMax 0 none w).2.trace ++ t) ∧
    (∃ l, (processBatch env batch w).failedLog
      = (retryLoop env batch retryMax 0 none w).2.failedLog ++ l) := by
  unfold processBatch
  cases hr : retryLoop env batch retryMax 0 none w with
  | mk r w2 =>
    cases r with
    | none => exact ⟨⟨[], by simp⟩, ⟨[], by simp⟩⟩
    | some e =>
      refine ⟨⟨[.logFinalFailure e, .saveFailedBatch batch], rfl⟩, ?_⟩
      by_cases ho : env.openFailedLog = true
      · exact ⟨(batch.map (fun code => code ++ goString "\n")).filter env.writeString, by
          simp [saveFailedBatch, ho]⟩
      · exact ⟨[], by simp [saveFailedBatch, ho]⟩

theorem processBatch_grows {σ ε : Type} (env : Env σ ε) (batch : List GoString)
    (w : Worker σ ε) :
    (∃ t, (processBatch env batch w).trace = w.trace ++ t) ∧
    (∃ l, (processBatch env batch w).failedLog = w.failedLog ++ l) := by
  obtain ⟨⟨t1, h1⟩, ⟨l1, h2⟩⟩ := processBatch_after_loop env batch w
  obtain ⟨⟨t0, h3⟩, h4⟩ := retryLoop_trace env batch retryMax 0 none w
  exact ⟨⟨t0 ++ t1, by rw [h1, h3, List.append_assoc]⟩, ⟨l1, by rw [h2, h4]⟩⟩

theorem processBatch_first {σ ε : Type} (env : Env σ ε) (batch : List GoString)
    (w : Worker σ ε) :
    ∃ t, (processBatch env batch w).trace
      = w.trace ++ Event.insertBatch batch (env.insertBatch w.db batch).1 :: t := by
  obtain ⟨⟨t1, h1⟩, _⟩ := processBatch_after_loop env batch w
  obtain ⟨t0, h3⟩ := retryLoop_first env batch 2 0 none w
  rw [show retryMax = 2 + 1 from rfl] at h1
  exact ⟨t0 ++ t1, by rw [h1, h3]; simp⟩

theorem batchProcessor_grows {σ ε : Type} (env : Env σ ε) (rest : List (List GoString)) :
    ∀ w : Worker σ ε,
      (∃ t, (batchProcessor env rest w).trace = w.trace ++ t) ∧
      (∃ l, (batchProcessor env rest w).failedLog = w.failedLog ++ l) := by
  induction rest with
  | nil => intro w; exact ⟨⟨[], by simp [batchProcessor]⟩, ⟨[], by simp [batchProcessor]⟩⟩
  | cons batch rest ih =>
    intro w
    obtain ⟨⟨t1, h1⟩, ⟨l1, h2⟩⟩ := processBatch_grows env batch w
    obtain ⟨⟨t2, h3⟩, ⟨l2, h4⟩⟩ := ih (processBatch env batch w)
    rw [batchProcessor]
    exact ⟨⟨t1 ++ t2, by rw [h3, h1, List.append_assoc]⟩,
      ⟨l1 ++ l2, by rw [h4, h2, List.append_assoc]⟩⟩

theorem processBatch_three_failures {σ ε : Type} (env : Env σ ε) (batch : List GoString)
    (w : Worker σ ε) (e1 e2 e3 : ε)
    (h1 : (env.insertBatch (dbAfter env batch 0 w.db) batch).1 = some e1)
    (h2 : (env.insertBatch (dbAfter env batch 1 w.db) batch).1 = some e2)
    (h3 : (env.insertBatch (dbAfter env batch 2 w.db) batch).1 = some e3) :
    processBatch env batch w
      = { db := dbAfter env batch 3 w.db,
          failedLog := saveFailedBatch env w.failedLog batch,
          trace := w.trace ++
            [.insertBatch batch (some e1), .sleep 100,
             .insertBatch batch (some e2), .sleep 200,
             .insertBatch batch (some e3), .sleep 300,
             .logFinalFailure e3, .saveFailedBatch batch] } := by
  simp only [dbAfter] at h1 h2 h3 ⊢
  have g1 : env.insertBatch w.db batch = (some e1, (env.insertBatch w.db batch).2) :=
    Prod.ext h1 rfl
  have g2 : env.insertBatch (env.insertBatch w.db batch).2 batch
      = (some e2, (env.insertBatch (env.insertBatch w.db batch).2 batch).2) :=
    Prod.ext h2 rfl
  have g3 : env.insertBatch (env.insertBatch (env.insertBatch w.db batch).2 batch).2 batch
      = (some e3,
          (env.insertBatch (env.insertBatch (env.insertBatch w.db batch).2 batch).2 batch).2) :=
    Prod.ext h3 rfl
  have hloop : retryLoop env batch retryMax 0 none w
      = (some e3,
          { db := (env.insertBatch (env.insertBatch (env.insertBatch w.db batch).2 batch).2
              batch).2,
            failedLog := w.failedLog,
            trace := w.trace ++
              [.insertBatch batch (some e1), .sleep 100,
               .insertBatch batch (some e2), .sleep 200,
               .insertBatch batch (some e3), .sleep 300] }) := by
    rw [show retryMax = 2 + 1 from rfl, retryLoop_fail env batch 2 0 none w e1 _ g1,
      retryLoop_fail env batch 1 1 (some e1) _ e2 _ g2,
      retryLoop_fail env batch 0 2 (some e2) _ e3 _ g3]
    simp [retryLoop]
  simp only [processBatch, hloop]
  simp

/-- C6: a batch whose insert fails on each of the three attempts made for it is
tried exactly three times, then handed once, whole and in order, to
`saveFailedBatch`, after which the worker goes on with the next batch of the
channel: the steps recorded for the batch are exactly three inserts with
their waits, the failure message and one `saveFailedBatch`, the run ends there
when the channel holds nothing more, and otherwise the very next step is the
insert of the next batch. -/
theorem exhausted_batch_is_dead_lettered {σ ε : Type} (env : Env σ ε) (batch : List GoString)
    (rest : List (List GoString)) (w : Worker σ ε) (e1 e2 e3 : ε)
    (h1 : (env.insertBatch (dbAfter env batch 0 w.db) batch).1 = some e1)
    (h2 : (env.insertBatch (dbAfter env batch 1 w.db) batch).1 = some e2)
    (h3 : (env.insertBatch (dbAfter env batch 2 w.db) batch).1 = some e3) :
    processBatch env batch w
      = { db := dbAfter env batch 3 w.db,
          failedLog := saveFailedBatch env w.failedLog batch,
          trace := w.trace ++
            [.insertBatch batch (some e1), .sleep 100,
             .insertBatch batch (some e2), .sleep 200,
             .insertBatch batch (some e3), .sleep 300,
             .logFinalFailure e3, .saveFailedBatch batch] } ∧
    batchProcessor env [batch] w
      = { db := dbAfter env batch 3 w.db,
          failedLog := saveFailedBatch env w.failedLog batch,
          trace := w.trace ++
            [.insertBatch batch (some e1), .sleep 100,
             .insertBatch batch (some e2), .sleep 200,
             .insertBatch batch (some e3), .sleep 300,
             .logFinalFailure e3, .saveFailedBatch batch] } ∧
    (∃ tail logged,
      (batchProcessor env (batch :: rest) w).trace
        = w.trace ++
            [.insertBatch batch (some e1), .sleep 100,
             .insertBatch batch (some e2), .sleep 200,
             .insertBatch batch (some e3), .sleep 300,
             .logFinalFailure e3, .saveFailedBatch batch] ++ tail ∧
      (batchProcessor env (batch :: rest) w).failedLog
        = saveFailedBatch env w.failedLog batch ++ logged ∧
      (∀ next more, rest = next :: more →
        ∃ tail2, tail
          = Event.insertBatch next (env.insertBatch (dbAfter env batch 3 w.db) next).1
              :: tail2)) ∧
    (env.openFailedLog = true → (∀ line, env.writeString line = true) →
      saveFailedBatch env w.failedLog batch
        = w.failedLog ++ batch.map (fun code => code ++ goString "\n")) := by
  have hp := processBatch_three_failures env batch w e1 e2 e3 h1 h2 h3
  refine ⟨hp, ?_, ?_, ?_⟩
  · rw [batchProcessor, batchProcessor, hp]
  · obtain ⟨⟨t, ht⟩, ⟨l, hl⟩⟩ := batchProcessor_grows env rest (processBatch env batch w)
    refine ⟨t, l, ?_, ?_, ?_⟩
    · rw [batchProcessor, ht, hp]
    · rw [batchProcessor, hl, hp]
    · intro next more hrest
      subst hrest
      obtain ⟨t1, hf⟩ := processBatch_first env next (processBatch env batch w)
      obtain ⟨⟨t2, hg⟩, _⟩ := batchProcessor_grows env more
        (processBatch env next (processBatch env batch w))
      rw [batchProcessor, hg, hf] at ht
      rw [List.append_assoc] at ht
      have := List.append_cancel_left ht
      refine ⟨t1 ++ t2, ?_⟩
      rw [← this, hp]
      simp
  · intro hopen hwrite
    simp [saveFailedBatch, hopen, hwrite]

/-- C6 on a database where exactly the first three inserts fail, for a batch of
two codes followed by another batch: three failed inserts, the two codes in
the dead-letter log, then the insert of the next batch, which succeeds. -/
theorem exhausted_batch_is_dead_lettered_witness :
    (threeFailEnv.insertBatch (dbAfter threeFailEnv [goString "a", goString "b"] 2 0)
      [goString "a", goString "b"]).1 = some () ∧
    processBatch threeFailEnv [goString "a", goString "b"] ⟨0, [], []⟩
      = { db := 3,
          failedLog := [goString "a\n", goString "b\n"],
          trace :=
            [.insertBatch [goString "a", goString "b"] (some ()), .sleep 100,
             .insertBatch [goString "a", goString "b"] (some ()), .sleep 200,
             .insertBatch [goString "a", goString "b"] (some ()), .sleep 300,
             .logFinalFailure (), .saveFailedBatch [goString "a", goString "b"]] } ∧
    (batchProcessor threeFailEnv [[goString "a", goString "b"], [goString "c"]]
        ⟨0, [], []⟩).trace
      = [.insertBatch [goString "a", goString "b"] (some ()), .sleep 100,
         .insertBatch [goString "a", goString "b"] (some ()), .sleep 200,
         .insertBatch [goString "a", goString "b"] (some ()), .sleep 300,
         .logFinalFailure (), .saveFailedBatch [goString "a", goString "b"],
         .insertBatch [goString "c"] none] :=
  ⟨by rfl,
    (exhausted_batch_is_dead_lettered threeFailEnv [goString "a", goString "b"]
      [[goString "c"]] ⟨0, [], []⟩ () () () (by rfl) (by rfl) (by rfl)).1,
    by rfl⟩

/-- C5 fails on the code: when the first insert of a batch fails and the second
succeeds, the worker still logs a final failure and hands the batch to
`saveFailedBatch`, which appends it to the dead-letter log. -/
theorem retried_batch_is_dead_lettered :
    (batchProcessor flakyEnv [[goString "x"]] ⟨0, [], []⟩).trace
      = [.insertBatch [goString "x"] (some ()), .sleep 100,
         .insertBatch [goString "x"] none,
         .logFinalFailure (), .saveFailedBatch [goString "x"]] ∧
    (batchProcessor flakyEnv [[goString "x"]] ⟨0, [], []⟩).failedLog = [goString "x\n"] :=
  ⟨by rfl, by rfl⟩

/-- C9: when the file hash, the line count and the row count are all read
without error, the verifier answers true exactly when the recomputed hash is
the hash taken before ingestion and the line count is the row count; when the
hashes differ it answers false whatever the counts, read or not. -/
theorem validateConsistency_iff {ε : Type} (currentHash originalHash : GoString)
    (fileLines dbCount : Int) :
    (validateConsistency (Except.ok currentHash : Except ε GoString) (Except.ok fileLines)
        (Except.ok dbCount) originalHash = true
      ↔ currentHash = originalHash ∧ fileLines = dbCount) ∧
    (∀ (lines rows : Except ε Int), currentHash ≠ originalHash →
      validateConsistency (Except.ok currentHash : Except ε GoString) lines rows originalHash
        = false) := by
  constructor
  · simp only [validateConsistency]
    by_cases h1 : currentHash = originalHash <;> by_cases h2 : fileLines = dbCount <;>
      simp [h1, h2]
  · intro lines rows hne
    simp [validateConsistency, hne]

/-- C9 on a mismatching hash with equal counts, and on a matching hash with
equal counts. -/
theorem validateConsistency_iff_witness :
    goString "ab" ≠ goString "aa" ∧
    validateConsistency (Except.ok (goString "ab") : Except Unit GoString) (Except.ok 5)
      (Except.ok 5) (goString "aa") = false ∧
    validateConsistency (Except.ok (goString "aa") : Except Unit GoString) (Except.ok 5)
      (Except.ok 5) (goString "aa") = true :=
  ⟨by decide,
    (validateConsistency_iff (goString "ab") (goString "aa") 5 5).2 (Except.ok 5) (Except.ok 5)
      (by decide),
    (validateConsistency_iff (goString "aa") (goString "aa") 5 5).1.2 ⟨rfl, rfl⟩⟩

end SSCC
